import Mathlib

/-!
# Verification of the Gaussian-process regression notebook

The repository is a single notebook that generates noisy sinusoidal data,
fits the hyperparameters of a squared-exponential GP kernel by maximising the
marginal likelihood, and builds the exact GP posterior predictive distribution
(both after maximum-likelihood fitting and after MCMC sampling of the
hyperparameters).

This file embeds the notebook's own glue functions (data generation, kernel
illustration, hyperparameter transform, training loop) directly from the
source, and models the exact GP posterior computation — which the notebook
delegates to an external probabilistic library — from §4.1 of the spec
(kernel matrices, noise-regularised training covariance, linear solves,
posterior mean and covariance).  Real numbers stand for the float64 values of
the source.
-/

open Real Matrix Filter Topology

namespace GPNotebook

/-- From the source (`sinusoid`): `np.sin(3 * np.pi * x[..., 0])`,
the ground-truth function evaluated at a 1-D index point. -/
noncomputable def sinusoid (x : ℝ) : ℝ := Real.sin (3 * Real.pi * x)

/-- `np.finfo(np.float64).tiny`, the smallest positive normal double,
`2 ^ (-1022)`; added to the softplus output by the source. -/
noncomputable def tiny : ℝ := 1 / 2 ^ 1022

/-- `tf.nn.softplus`: `log(1 + exp x)`. -/
noncomputable def softplus (x : ℝ) : ℝ := Real.log (1 + Real.exp x)

/-- The hyperparameter transform the source applies to each unconstrained
variable in `neg_log_likelihood` and in the re-definition cell:
`np.finfo(np.float64).tiny + tf.nn.softplus(x)`. -/
noncomputable def constrainPositive (x : ℝ) : ℝ := tiny + softplus x

/-- From the source (`exponentiated_quadratic`):
`np.exp(-0.5 * scipy.spatial.distance.cdist(xa, xb, 'sqeuclidean'))`,
evaluated at one row of `xa` and one row of `xb` (rows are points of `ℝ^d`;
the notebook calls it with `d = 1` column vectors). -/
noncomputable def exponentiated_quadratic {d : ℕ} (xa xb : Fin d → ℝ) : ℝ :=
  Real.exp (-(1 / 2) * ∑ i, (xa i - xb i) ^ 2)

/-- Modelled from the spec: the `ExponentiatedQuadratic(amplitude, length_scale)`
kernel of the external probabilistic library — used by the source for every GP
computation — is not under `src/`.  §9 of the spec identifies it with the
textbook squared-exponential (RBF) form
`amplitude² · exp(−‖x−x'‖² / (2·length_scale²))`, here on the 1-D index points
the notebook uses. -/
noncomputable def ExponentiatedQuadratic (amplitude length_scale : ℝ) (x y : ℝ) : ℝ :=
  amplitude ^ 2 * Real.exp (-((x - y) / length_scale) ^ 2 / 2)

/-- The kernel formula exactly as the spec's §3 writes it:
`k(x,x') = σ² · exp(−‖x−x'‖² / λ²)` (no factor 2 in the denominator of the
exponent).  Stated only for comparison against the kernels of the source. -/
noncomputable def specKernelFormula (amplitude length_scale : ℝ) (x y : ℝ) : ℝ :=
  amplitude ^ 2 * Real.exp (-(x - y) ^ 2 / length_scale ^ 2)

/-- Modelled from the spec (§4.1): the kernel (Gram) matrix `k(X, Y)` between
two families of index points, built from the library kernel. -/
noncomputable def kernelMatrix {ι κ : Type*} (σ lam : ℝ) (xs : ι → ℝ) (ys : κ → ℝ) :
    Matrix ι κ ℝ :=
  Matrix.of fun i j => ExponentiatedQuadratic σ lam (xs i) (ys j)

/-- Modelled from the spec (§4.1): the noise-regularised training covariance
`K = k(X,X) + σₙ² I`. -/
noncomputable def trainCov {n : ℕ} (σ lam σn2 : ℝ) (X : Fin n → ℝ) :
    Matrix (Fin n) (Fin n) ℝ :=
  kernelMatrix σ lam X X + σn2 • 1

/-- Modelled from the spec (§4.1): the stable linear solve of `K x = b` used
for the posterior mean, realised by a concrete solver (Cramer determinant
expansion) rather than by writing down `K⁻¹`. -/
noncomputable def solveVec {n : ℕ} (K : Matrix (Fin n) (Fin n) ℝ) (b : Fin n → ℝ) :
    Fin n → ℝ :=
  K.det⁻¹ • K.cramer b

/-- Modelled from the spec (§4.1): the linear solve `K X = B` with a matrix
right-hand side, used for the posterior covariance. -/
noncomputable def solveMat {n m : ℕ} (K : Matrix (Fin n) (Fin n) ℝ)
    (B : Matrix (Fin n) (Fin m) ℝ) : Matrix (Fin n) (Fin m) ℝ :=
  K.det⁻¹ • (K.adjugate * B)

/-- Modelled from the spec (§4.1): the posterior predictive mean
`K* · (solve of K against y)` at query points `Xq`. -/
noncomputable def gprmMean {n m : ℕ} (X : Fin n → ℝ) (y : Fin n → ℝ) (Xq : Fin m → ℝ)
    (σ lam σn2 : ℝ) : Fin m → ℝ :=
  (kernelMatrix σ lam Xq X).mulVec (solveVec (trainCov σ lam σn2 X) y)

/-- Modelled from the spec (§4.1): the posterior predictive covariance
`K** − K* · (solve of K against K*ᵀ)`, plus the optional predictive noise
variance `p` on the diagonal (the source passes `predictive_noise_variance=0`). -/
noncomputable def gprmCov {n m : ℕ} (X : Fin n → ℝ) (Xq : Fin m → ℝ)
    (σ lam σn2 p : ℝ) : Matrix (Fin m) (Fin m) ℝ :=
  kernelMatrix σ lam Xq Xq
    - kernelMatrix σ lam Xq X * solveMat (trainCov σ lam σn2 X) (kernelMatrix σ lam X Xq)
    + p • 1

section Transform

lemma softplus_pos (x : ℝ) : 0 < softplus x :=
  Real.log_pos (by linarith [Real.exp_pos x])

lemma tiny_pos : 0 < tiny := by unfold tiny; positivity

lemma constrainPositive_pos (x : ℝ) : 0 < constrainPositive x :=
  add_pos tiny_pos (softplus_pos x)

lemma softplus_strictMono {x y : ℝ} (h : x < y) : softplus x < softplus y :=
  Real.log_lt_log (by positivity) (by linarith [Real.exp_lt_exp.mpr h])

lemma constrainPositive_strictMono {x y : ℝ} (h : x < y) :
    constrainPositive x < constrainPositive y :=
  add_lt_add_left (softplus_strictMono h) tiny

end Transform

/-- **C3.** The hyperparameter transform (tiny floor plus softplus) applied by
the program to the unconstrained amplitude, length-scale and noise-variance
variables returns a strictly positive value for every finite real input, and
is monotonically increasing: for all `x < y`, `transform x < transform y`. -/
theorem constrainPositive_pos_and_strictMono (x y : ℝ) (hxy : x < y) :
    0 < constrainPositive x ∧ constrainPositive x < constrainPositive y :=
  ⟨constrainPositive_pos x, constrainPositive_strictMono hxy⟩

/-- Witness for C3 at the concrete inputs `0 < 1`. -/
theorem constrainPositive_pos_and_strictMono_witness :
    (0 : ℝ) < 1 ∧ (0 < constrainPositive 0 ∧ constrainPositive 0 < constrainPositive 1) :=
  ⟨by norm_num, constrainPositive_pos_and_strictMono 0 1 (by norm_num)⟩

section Kernel

/-- Counterexample to **C2**: at `σ = λ = 1` and the points `x = 0`, `x' = 1`,
the notebook's own kernel (`exponentiated_quadratic`) evaluates to
`exp (−1/2)`, while the formula the claim states — `σ²·exp(−‖x−x'‖²/λ²)` —
evaluates to `exp (−1)`; the two differ. -/
theorem exponentiated_quadratic_ne_specKernelFormula :
    exponentiated_quadratic ![(0 : ℝ)] ![1] ≠ specKernelFormula 1 1 0 1 := by
  have h1 : exponentiated_quadratic ![(0 : ℝ)] ![1] = Real.exp (-(1 / 2)) := by
    simp [exponentiated_quadratic, Fin.sum_univ_one]
  have h2 : specKernelFormula (1 : ℝ) 1 0 1 = Real.exp (-1) := by
    simp [specKernelFormula]
  rw [h1, h2]
  intro h
  rw [Real.exp_eq_exp] at h
  norm_num at h

/-- **C2 (amended).** The covariance kernel used by the program evaluates to
`σ² · exp(−‖x−x'‖² / (2·λ²))` — the textbook squared-exponential form with the
factor 2 in the denominator that the spec's formula omits — and the notebook's
own `exponentiated_quadratic` illustration agrees with it at `σ = λ = 1`. -/
theorem kernel_eq_rbf_with_half_factor (σ lam x y : ℝ) :
    ExponentiatedQuadratic σ lam x y = σ ^ 2 * Real.exp (-(x - y) ^ 2 / (2 * lam ^ 2)) ∧
    exponentiated_quadratic ![x] ![y] = ExponentiatedQuadratic 1 1 x y := by
  constructor
  · unfold ExponentiatedQuadratic
    congr 2
    ring
  · unfold exponentiated_quadratic ExponentiatedQuadratic
    rw [Fin.sum_univ_one]
    simp only [Matrix.cons_val_zero, one_pow, one_mul]
    congr 1
    ring

end Kernel

section TrainingLoop

/-- From the source: `num_iters = 1000`. -/
def num_iters : ℕ := 1000

/-- From the source: the hyperparameter fitting loop
`for i in range(num_iters): ...` — each iteration evaluates the loss, obtains
gradients and applies one external optimizer update; `step` is that loop body
acting on the optimizer/variable state `S`.  The loop ranges over
`range num_iters` and has no other exit. -/
def trainingRun {S : Type*} (step : S → S) (s0 : S) : S :=
  (List.range num_iters).foldl (fun s _ => step s) s0

lemma foldl_range_eq_iterate {S : Type*} (step : S → S) (s0 : S) (n : ℕ) :
    (List.range n).foldl (fun s _ => step s) s0 = step^[n] s0 := by
  induction n with
  | zero => rfl
  | succ k ih =>
      rw [List.range_succ, List.foldl_append, ih]
      simp [Function.iterate_succ_apply']

/-- **C9.** The hyperparameter fitting loop always terminates after exactly
its fixed budget of 1000 iterations, performing one optimizer step per
iteration; the result is `step` iterated 1000 times from the initial state,
for every step function and every initial state — no convergence or
divergence check can end the loop earlier or extend it. -/
theorem trainingRun_fixed_iteration_budget {S : Type*} (step : S → S) (s0 : S) :
    trainingRun step s0 = step^[1000] s0 ∧ num_iters = 1000 :=
  ⟨foldl_range_eq_iterate step s0 1000, rfl⟩

end TrainingLoop

section Validation

/-- The error kind the spec's §7 prescribes for invalid configurations.
No code in the repository constructs or raises such an error. -/
inductive InputValidationError where
  | nonPositiveNoiseVariance : InputValidationError
  | dimensionMismatch : InputValidationError

/-- From the source (`generate_1d_data`): returns the uniformly drawn index
points together with `sinusoid(points) + N(0, √observation_noise_variance)`
noise.  The randomness is passed explicitly: `pts` are the uniform draws and
`noise` the standard-normal draws, scaled by the standard deviation the
source computes.  The source performs no validation and has no failure path,
so in the `Except` shape §7 of the spec prescribes the function consists of
the single `ok` branch. -/
noncomputable def generate_1d_data (num_training_points : ℕ)
    (observation_noise_variance : ℝ) (pts : Fin num_training_points → ℝ)
    (noise : Fin num_training_points → ℝ) :
    Except InputValidationError
      ((Fin num_training_points → ℝ) × (Fin num_training_points → ℝ)) :=
  Except.ok (pts, fun i =>
    sinusoid (pts i) + Real.sqrt observation_noise_variance * noise i)

/-- Counterexample to **C8**: with the invalid configuration
`observation_noise_variance = −1/10` (and the notebook's
`num_training_points = 100`), `generate_1d_data` does not fail with an
`InputValidationError` at the API boundary — it returns normally. -/
theorem generate_1d_data_accepts_negative_noise :
    (generate_1d_data 100 (-(1 / 10)) (fun _ => 0) (fun _ => 0)).isOk = true := rfl

/-- **C8 (amended).** The program performs no input validation: for every
configuration, including a non-positive requested observation noise variance,
`generate_1d_data` returns normally, and no code path in the repository
produces an `InputValidationError`. -/
theorem generate_1d_data_never_validates (n : ℕ) (v : ℝ) (pts noise : Fin n → ℝ) :
    (generate_1d_data n v pts noise).isOk = true := rfl

end Validation

section PredictiveNoise

/-- The argument record of a `tfd.GaussianProcessRegressionModel(...)` call
(`n` training points, `m` query points, 1-D index points as in the source). -/
structure GPRMArgs (n m : ℕ) where
  amplitude : ℝ
  length_scale : ℝ
  index_points : Fin m → ℝ
  observation_index_points : Fin n → ℝ
  observations : Fin n → ℝ
  observation_noise_variance : ℝ
  predictive_noise_variance : ℝ

/-- The posterior covariance that the exact GP posterior computation (§4.1)
assigns to a `GPRMArgs` record. -/
noncomputable def GPRMArgs.cov {n m : ℕ} (a : GPRMArgs n m) :
    Matrix (Fin m) (Fin m) ℝ :=
  gprmCov a.observation_index_points a.index_points a.amplitude a.length_scale
    a.observation_noise_variance a.predictive_noise_variance

/-- From the source (maximum-likelihood cell): the `gprm` construction with
the trained variables pushed through the positivity transform and
`predictive_noise_variance=0.`. -/
noncomputable def gprmMLE {n m : ℕ} (amplitudeVar lengthScaleVar noiseVar : ℝ)
    (obsX obsY : Fin n → ℝ) (predX : Fin m → ℝ) : GPRMArgs n m where
  amplitude := constrainPositive amplitudeVar
  length_scale := constrainPositive lengthScaleVar
  index_points := predX
  observation_index_points := obsX
  observations := obsY
  observation_noise_variance := constrainPositive noiseVar
  predictive_noise_variance := 0

/-- From the source (MCMC cell): the second `gprm` construction, with one
sampled hyperparameter state and again `predictive_noise_variance=0.`. -/
noncomputable def gprmMCMC {n m : ℕ} (amplitude length_scale noise_variance : ℝ)
    (obsX obsY : Fin n → ℝ) (predX : Fin m → ℝ) : GPRMArgs n m where
  amplitude := amplitude
  length_scale := length_scale
  index_points := predX
  observation_index_points := obsX
  observations := obsY
  observation_noise_variance := noise_variance
  predictive_noise_variance := 0

/-- **C10.** Both posterior predictive constructions — after
maximum-likelihood fitting and after MCMC sampling — set the predictive noise
variance to exactly 0, so the posterior predictive covariance they return is
the noise-free `K** − K*·K⁻¹·K*ᵀ`: the learned observation noise variance is
not added to the query covariance (it enters only through the training
covariance inside the solve). -/
theorem gprm_predictive_noise_variance_zero {n m : ℕ}
    (aV lV vV aS lS vS : ℝ) (obsX obsY : Fin n → ℝ) (predX : Fin m → ℝ) :
    (gprmMLE aV lV vV obsX obsY predX).predictive_noise_variance = 0 ∧
    (gprmMCMC aS lS vS obsX obsY predX).predictive_noise_variance = 0 ∧
    (gprmMLE aV lV vV obsX obsY predX).cov
      = kernelMatrix (constrainPositive aV) (constrainPositive lV) predX predX
        - kernelMatrix (constrainPositive aV) (constrainPositive lV) predX obsX
          * solveMat
              (trainCov (constrainPositive aV) (constrainPositive lV)
                (constrainPositive vV) obsX)
              (kernelMatrix (constrainPositive aV) (constrainPositive lV) obsX predX) ∧
    (gprmMCMC aS lS vS obsX obsY predX).cov
      = kernelMatrix aS lS predX predX
        - kernelMatrix aS lS predX obsX
          * solveMat (trainCov aS lS vS obsX) (kernelMatrix aS lS obsX predX) := by
  refine ⟨rfl, rfl, ?_, ?_⟩ <;>
    simp [GPRMArgs.cov, gprmMLE, gprmMCMC, gprmCov]

end PredictiveNoise

section KernelPosSemidef

variable {ι : Type*} [Fintype ι]

lemma summable_coeff (a b : ℝ) :
    Summable fun m : ℕ => b * (a ^ m / (m.factorial : ℝ)) :=
  (Real.summable_pow_div_factorial a).mul_left b

/-- Quadratic forms against the matrix `exp (u i * u j)` are nonnegative:
expanding the exponential as its power series, each order contributes a
perfect square. -/
lemma exp_sq_sum_nonneg (w u : ι → ℝ) :
    0 ≤ ∑ i : ι, ∑ j : ι, w i * w j * Real.exp (u i * u j) := by
  have hexp : ∀ i j : ι, w i * w j * Real.exp (u i * u j)
      = tsum fun m : ℕ => w i * w j * ((u i * u j) ^ m / (m.factorial : ℝ)) := by
    intro i j
    simp only [Real.exp_eq_exp_ℝ, NormedSpace.exp_eq_tsum_div]
    exact tsum_mul_left.symm
  have h1 : ∀ i : ι,
      (∑ j : ι, tsum fun m : ℕ => w i * w j * ((u i * u j) ^ m / (m.factorial : ℝ)))
        = tsum fun m : ℕ => ∑ j : ι, w i * w j * ((u i * u j) ^ m / (m.factorial : ℝ)) :=
    fun i => (tsum_sum fun j _ => summable_coeff _ _).symm
  have hswap : ∑ i : ι, ∑ j : ι, w i * w j * Real.exp (u i * u j)
      = tsum fun m : ℕ => ∑ i : ι, ∑ j : ι,
          w i * w j * ((u i * u j) ^ m / (m.factorial : ℝ)) := by
    simp_rw [hexp, h1]
    exact (tsum_sum fun i _ => summable_sum fun j _ => summable_coeff _ _).symm
  rw [hswap]
  refine tsum_nonneg fun m => ?_
  have hterm : ∀ i j : ι, w i * w j * ((u i * u j) ^ m / (m.factorial : ℝ))
      = (w i * u i ^ m) * (w j * u j ^ m) * ((m.factorial : ℝ))⁻¹ := by
    intro i j
    rw [mul_pow]
    ring
  have hm : ∑ i : ι, ∑ j : ι, w i * w j * ((u i * u j) ^ m / (m.factorial : ℝ))
      = (∑ i : ι, w i * u i ^ m) ^ 2 / (m.factorial : ℝ) := by
    rw [sq, Finset.sum_mul_sum, div_eq_mul_inv]
    simp_rw [hterm, ← Finset.sum_mul]
  rw [hm]
  positivity

lemma ExponentiatedQuadratic_symm (σ lam x y : ℝ) :
    ExponentiatedQuadratic σ lam x y = ExponentiatedQuadratic σ lam y x := by
  unfold ExponentiatedQuadratic
  congr 1
  congr 1
  ring

/-- Factorisation of the squared-exponential kernel entry used by the
positive-semidefiniteness proof:
`σ²·exp(−(a−b)²/(2λ²)) = σ²·(exp(−a²/(2λ²))·exp(−b²/(2λ²))·exp(⟨√(1/λ²)a, √(1/λ²)b⟩))`. -/
lemma ExponentiatedQuadratic_decomp (σ lam a b : ℝ) :
    ExponentiatedQuadratic σ lam a b
      = σ ^ 2 * (Real.exp (-(a ^ 2 / (2 * lam ^ 2))) * Real.exp (-(b ^ 2 / (2 * lam ^ 2)))
          * Real.exp (Real.sqrt (1 / lam ^ 2) * a * (Real.sqrt (1 / lam ^ 2) * b))) := by
  have h0 : (0 : ℝ) ≤ 1 / lam ^ 2 := by positivity
  have hu : Real.sqrt (1 / lam ^ 2) * a * (Real.sqrt (1 / lam ^ 2) * b)
      = 1 / lam ^ 2 * (a * b) := by
    calc Real.sqrt (1 / lam ^ 2) * a * (Real.sqrt (1 / lam ^ 2) * b)
        = Real.sqrt (1 / lam ^ 2) * Real.sqrt (1 / lam ^ 2) * (a * b) := by ring
      _ = 1 / lam ^ 2 * (a * b) := by rw [Real.mul_self_sqrt h0]
  unfold ExponentiatedQuadratic
  rw [hu, ← Real.exp_add, ← Real.exp_add]
  congr 1
  congr 1
  ring

omit [Fintype ι] in
lemma kernelMatrix_isHermitian (σ lam : ℝ) (x : ι → ℝ) :
    (kernelMatrix σ lam x x).IsHermitian := by
  ext i j
  simp only [Matrix.conjTranspose_apply, kernelMatrix, Matrix.of_apply, star_trivial]
  exact ExponentiatedQuadratic_symm σ lam (x j) (x i)

/-- The Gram matrix of the squared-exponential kernel over any finite family
of index points is positive semidefinite. -/
lemma kernelMatrix_posSemidef (σ lam : ℝ) (x : ι → ℝ) :
    (kernelMatrix σ lam x x).PosSemidef := by
  refine ⟨kernelMatrix_isHermitian σ lam x, fun z => ?_⟩
  have hform : dotProduct (star z) (kernelMatrix σ lam x x *ᵥ z)
      = ∑ i : ι, ∑ j : ι,
          z i * (σ * Real.exp (-(x i ^ 2 / (2 * lam ^ 2))))
            * (z j * (σ * Real.exp (-(x j ^ 2 / (2 * lam ^ 2)))))
            * Real.exp (Real.sqrt (1 / lam ^ 2) * x i * (Real.sqrt (1 / lam ^ 2) * x j)) := by
    simp only [Matrix.dotProduct, Matrix.mulVec, Pi.star_apply, star_trivial,
      kernelMatrix, Matrix.of_apply, Finset.mul_sum]
    refine Finset.sum_congr rfl fun i _ => Finset.sum_congr rfl fun j _ => ?_
    rw [ExponentiatedQuadratic_decomp]
    ring
  rw [hform]
  exact exp_sq_sum_nonneg
    (fun i => z i * (σ * Real.exp (-(x i ^ 2 / (2 * lam ^ 2)))))
    (fun i => Real.sqrt (1 / lam ^ 2) * x i)

/-- With a strictly positive noise variance, the training covariance
`K = k(X,X) + σₙ²·I` is positive definite. -/
lemma trainCov_posDef {n : ℕ} {σn2 : ℝ} (σ lam : ℝ) (hσn2 : 0 < σn2) (X : Fin n → ℝ) :
    (trainCov σ lam σn2 X).PosDef := by
  unfold trainCov
  have h1 : ((σn2 : ℝ) • (1 : Matrix (Fin n) (Fin n) ℝ)).PosDef := by
    rw [Matrix.smul_one_eq_diagonal]
    exact Matrix.PosDef.diagonal fun _ => hσn2
  exact Matrix.PosDef.posSemidef_add (kernelMatrix_posSemidef σ lam X) h1

end KernelPosSemidef

section Solve

lemma solveVec_eq_inv_mulVec {n : ℕ} (K : Matrix (Fin n) (Fin n) ℝ) (b : Fin n → ℝ) :
    solveVec K b = K⁻¹ *ᵥ b := by
  unfold solveVec
  rw [Matrix.cramer_eq_adjugate_mulVec, Matrix.inv_def, Ring.inverse_eq_inv,
    Matrix.smul_mulVec_assoc]

lemma solveMat_eq_inv_mul {n m : ℕ} (K : Matrix (Fin n) (Fin n) ℝ)
    (B : Matrix (Fin n) (Fin m) ℝ) : solveMat K B = K⁻¹ * B := by
  unfold solveMat
  rw [Matrix.inv_def, Ring.inverse_eq_inv, Matrix.smul_mul]

lemma kernelMatrix_transpose {n m : ℕ} (σ lam : ℝ) (X : Fin n → ℝ) (Xq : Fin m → ℝ) :
    (kernelMatrix σ lam Xq X)ᵀ = kernelMatrix σ lam X Xq := by
  ext i j
  simp only [Matrix.transpose_apply, kernelMatrix, Matrix.of_apply]
  exact ExponentiatedQuadratic_symm σ lam (Xq j) (X i)

lemma kernelMatrix_conjTranspose {n m : ℕ} (σ lam : ℝ) (X : Fin n → ℝ) (Xq : Fin m → ℝ) :
    (kernelMatrix σ lam X Xq)ᴴ = kernelMatrix σ lam Xq X := by
  ext i j
  simp only [Matrix.conjTranspose_apply, kernelMatrix, Matrix.of_apply, star_trivial]
  exact ExponentiatedQuadratic_symm σ lam (X j) (Xq i)

end Solve

section PosteriorCov

/-- The joint block matrix over training and query points — training
covariance, cross-covariances and query covariance — is positive
semidefinite: it is the kernel Gram matrix over the concatenated points plus
the nonnegative noise term on the training block. -/
lemma joint_posSemidef {n m : ℕ} (σ lam : ℝ) {σn2 : ℝ} (hσn2 : 0 ≤ σn2)
    (X : Fin n → ℝ) (Xq : Fin m → ℝ) :
    (Matrix.fromBlocks (trainCov σ lam σn2 X) (kernelMatrix σ lam X Xq)
      (kernelMatrix σ lam X Xq)ᴴ (kernelMatrix σ lam Xq Xq)).PosSemidef := by
  have hN : (Matrix.fromBlocks (σn2 • (1 : Matrix (Fin n) (Fin n) ℝ)) 0 0
      (0 : Matrix (Fin m) (Fin m) ℝ)).PosSemidef := by
    have h22 : (0 : Matrix (Fin m) (Fin m) ℝ) = Matrix.diagonal fun _ => 0 :=
      Matrix.diagonal_zero.symm
    rw [Matrix.smul_one_eq_diagonal, h22, Matrix.fromBlocks_diagonal]
    refine Matrix.PosSemidef.diagonal ?_
    intro i
    cases i with
    | inl a => simpa using hσn2
    | inr b => simp
  have hJ : Matrix.fromBlocks (trainCov σ lam σn2 X) (kernelMatrix σ lam X Xq)
      (kernelMatrix σ lam X Xq)ᴴ (kernelMatrix σ lam Xq Xq)
      = kernelMatrix σ lam (Sum.elim X Xq) (Sum.elim X Xq)
        + Matrix.fromBlocks (σn2 • 1) 0 0 0 := by
    rw [kernelMatrix_conjTranspose]
    ext i j
    cases i with
    | inl a =>
      cases j with
      | inl b =>
        simp [Matrix.fromBlocks_apply₁₁, trainCov, kernelMatrix, Matrix.add_apply]
      | inr b =>
        simp [Matrix.fromBlocks_apply₁₂, kernelMatrix, Matrix.add_apply]
    | inr a =>
      cases j with
      | inl b =>
        simp [Matrix.fromBlocks_apply₂₁, kernelMatrix, Matrix.add_apply]
      | inr b =>
        simp [Matrix.fromBlocks_apply₂₂, kernelMatrix, Matrix.add_apply]
  rw [hJ]
  exact (kernelMatrix_posSemidef σ lam (Sum.elim X Xq)).add hN

/-- The posterior covariance of §4.1 (with `predictive_noise_variance = 0`)
is the Schur complement of the positive-definite training block inside the
joint positive-semidefinite block matrix, hence positive semidefinite. -/
lemma gprmCov_posSemidef {n m : ℕ} (σ lam : ℝ) {σn2 : ℝ} (hσn2 : 0 < σn2)
    (X : Fin n → ℝ) (Xq : Fin m → ℝ) :
    (gprmCov X Xq σ lam σn2 0).PosSemidef := by
  have hK : (trainCov σ lam σn2 X).PosDef := trainCov_posDef σ lam hσn2 X
  haveI : Invertible (trainCov σ lam σn2 X) := hK.isUnit.invertible
  have hSchur := (Matrix.PosSemidef.fromBlocks₁₁ (kernelMatrix σ lam X Xq)
      (kernelMatrix σ lam Xq Xq) hK).mp (joint_posSemidef σ lam hσn2.le X Xq)
  have hEq : gprmCov X Xq σ lam σn2 0
      = kernelMatrix σ lam Xq Xq
        - (kernelMatrix σ lam X Xq)ᴴ * (trainCov σ lam σn2 X)⁻¹
            * kernelMatrix σ lam X Xq := by
    unfold gprmCov
    rw [kernelMatrix_conjTranspose, solveMat_eq_inv_mul, zero_smul, add_zero,
      Matrix.mul_assoc]
  rw [hEq]
  exact hSchur

lemma posSemidef_diag_nonneg {κ : Type*} [Fintype κ] [DecidableEq κ]
    {M : Matrix κ κ ℝ} (h : M.PosSemidef) (i : κ) : 0 ≤ M i i := by
  have h2 := h.2 (Pi.single i 1)
  simpa [Matrix.dotProduct, Pi.single_apply, ite_mul] using h2

lemma posSemidef_transpose_self {κ : Type*} [Fintype κ] {M : Matrix κ κ ℝ}
    (h : M.PosSemidef) : Mᵀ = M := by
  ext i j
  have h1 : Mᴴ i j = M i j := congrFun (congrFun h.1 i) j
  simpa [Matrix.conjTranspose_apply] using h1

end PosteriorCov

/-- **C4.** For all valid inputs — a training set with `n ≥ 1` points, query
points (of the same 1-D feature dimensionality, as everywhere in the source),
and strictly positive hyperparameters — the posterior covariance matrix
produced by the GP posterior computation is symmetric, has non-negative
diagonal entries, and is positive semidefinite. -/
theorem gprmCov_symm_nonnegDiag_posSemidef {n m : ℕ} (X : Fin n → ℝ) (Xq : Fin m → ℝ)
    (σ lam σn2 : ℝ) (_hn : 0 < n) (_hσ : 0 < σ) (_hlam : 0 < lam) (hσn2 : 0 < σn2) :
    (gprmCov X Xq σ lam σn2 0)ᵀ = gprmCov X Xq σ lam σn2 0 ∧
    (∀ i, 0 ≤ gprmCov X Xq σ lam σn2 0 i i) ∧
    (gprmCov X Xq σ lam σn2 0).PosSemidef := by
  have h := gprmCov_posSemidef σ lam hσn2 X Xq
  exact ⟨posSemidef_transpose_self h, fun i => posSemidef_diag_nonneg h i, h⟩

/-- Witness for C4 at one training point `0`, one query point `0` and unit
hyperparameters. -/
theorem gprmCov_symm_nonnegDiag_posSemidef_witness :
    (0 < 1 ∧ (0 : ℝ) < 1) ∧
    ((gprmCov ![(0 : ℝ)] ![(0 : ℝ)] 1 1 1 0)ᵀ = gprmCov ![(0 : ℝ)] ![(0 : ℝ)] 1 1 1 0 ∧
      (∀ i, 0 ≤ gprmCov ![(0 : ℝ)] ![(0 : ℝ)] 1 1 1 0 i i) ∧
      (gprmCov ![(0 : ℝ)] ![(0 : ℝ)] 1 1 1 0).PosSemidef) :=
  ⟨⟨by norm_num, by norm_num⟩,
    gprmCov_symm_nonnegDiag_posSemidef ![0] ![0] 1 1 1
      (by norm_num) (by norm_num) (by norm_num) (by norm_num)⟩

/-- **C1.** For every training set `(X, y)` with `n ≥ 1` points, every family
of query points and every hyperparameter triple, the posterior predictive
distribution computed by the GP regression model (predictive noise 0, as the
source passes) has mean vector `K*·K⁻¹·y` and covariance matrix
`K** − K*·K⁻¹·K*ᵀ`, where `K = k(X,X) + σₙ²·I`, `K* = k(X*,X)` and
`K** = k(X*,X*)`. -/
theorem gprm_mean_cov_formulas {n m : ℕ} (X y : Fin n → ℝ) (Xq : Fin m → ℝ)
    (σ lam σn2 : ℝ) (_hn : 0 < n) :
    gprmMean X y Xq σ lam σn2
      = (kernelMatrix σ lam Xq X * (trainCov σ lam σn2 X)⁻¹) *ᵥ y ∧
    gprmCov X Xq σ lam σn2 0
      = kernelMatrix σ lam Xq Xq
        - kernelMatrix σ lam Xq X * (trainCov σ lam σn2 X)⁻¹
            * (kernelMatrix σ lam Xq X)ᵀ := by
  constructor
  · unfold gprmMean
    rw [solveVec_eq_inv_mulVec, Matrix.mulVec_mulVec]
  · unfold gprmCov
    rw [solveMat_eq_inv_mul, kernelMatrix_transpose, zero_smul, add_zero,
      Matrix.mul_assoc]

/-- Witness for C1 at one training point `0` with target `2`, one query
point `0` and unit hyperparameters. -/
theorem gprm_mean_cov_formulas_witness :
    0 < 1 ∧
    (gprmMean ![(0 : ℝ)] ![(2 : ℝ)] ![(0 : ℝ)] 1 1 1
        = (kernelMatrix 1 1 ![(0 : ℝ)] ![(0 : ℝ)] * (trainCov 1 1 1 ![(0 : ℝ)])⁻¹)
            *ᵥ ![(2 : ℝ)] ∧
      gprmCov ![(0 : ℝ)] ![(0 : ℝ)] 1 1 1 0
        = kernelMatrix 1 1 ![(0 : ℝ)] ![(0 : ℝ)]
          - kernelMatrix 1 1 ![(0 : ℝ)] ![(0 : ℝ)] * (trainCov 1 1 1 ![(0 : ℝ)])⁻¹
              * (kernelMatrix 1 1 ![(0 : ℝ)] ![(0 : ℝ)])ᵀ) :=
  ⟨by norm_num, gprm_mean_cov_formulas ![0] ![2] ![0] 1 1 1 (by norm_num)⟩

section MarginalLikelihood

/-- Modelled from the spec (§4.3): the scalar the source's
`neg_log_likelihood` returns — the negative log density of the observations
under the zero-mean Gaussian with covariance `K` built from the transformed
variables: `½·yᵀK⁻¹y + ½·log det K + (n/2)·log(2π)`. -/
noncomputable def neg_log_likelihood {n : ℕ} (X y : Fin n → ℝ) (aVar lVar vVar : ℝ) : ℝ :=
  1 / 2 * dotProduct y
      ((trainCov (constrainPositive aVar) (constrainPositive lVar)
        (constrainPositive vVar) X)⁻¹ *ᵥ y)
    + 1 / 2 * Real.log (trainCov (constrainPositive aVar) (constrainPositive lVar)
        (constrainPositive vVar) X).det
    + (n : ℝ) / 2 * Real.log (2 * Real.pi)

set_option maxRecDepth 4000 in
lemma posDef_det_pos {n : ℕ} {M : Matrix (Fin n) (Fin n) ℝ} (h : M.PosDef) :
    0 < M.det :=
  h.det_pos

/-- **C6.** With the synthetic dataset of 100 training points (whatever
values the seedless random draws produced) and unconstrained kernel
parameters amplitude = 1, length-scale = 1, noise-variance = 1e-6, the
training covariance is positive definite and its determinant strictly
positive — so the negative log marginal likelihood is a quadratic form of an
invertible matrix plus the logarithm of a positive real: a well-defined,
finite scalar — and two evaluations of the pure function on the same state
are identical. -/
theorem neg_log_likelihood_finite_and_deterministic (X y : Fin 100 → ℝ) :
    (trainCov (constrainPositive 1) (constrainPositive 1)
      (constrainPositive (1 / 1000000)) X).PosDef ∧
    0 < (trainCov (constrainPositive 1) (constrainPositive 1)
      (constrainPositive (1 / 1000000)) X).det ∧
    neg_log_likelihood X y 1 1 (1 / 1000000)
      = neg_log_likelihood X y 1 1 (1 / 1000000) := by
  have h := trainCov_posDef (constrainPositive 1) (constrainPositive 1)
    (constrainPositive_pos (1 / 1000000)) X
  exact ⟨h, posDef_det_pos h, rfl⟩

end MarginalLikelihood

section FailFast

/-- The distinguishable error kind the spec's §7 prescribes for numerical
failure. -/
inductive NumericalInstabilityError where
  | notPositiveDefinite : NumericalInstabilityError

/-- Modelled from the spec (§4.1 failure condition, §7): the checked exact GP
posterior computation.  When the training covariance `K` is not positive
definite to working precision — the condition under which its Cholesky
factorization fails — it fails fast with a `NumericalInstabilityError`;
otherwise it returns the posterior mean and covariance of §4.1. -/
noncomputable def gpPosteriorChecked {n m : ℕ} (X y : Fin n → ℝ) (Xq : Fin m → ℝ)
    (σ lam σn2 : ℝ) :
    Except NumericalInstabilityError ((Fin m → ℝ) × Matrix (Fin m) (Fin m) ℝ) :=
  let _inst : Decidable (trainCov σ lam σn2 X).PosDef := Classical.propDecidable _
  if (trainCov σ lam σn2 X).PosDef then
    Except.ok (gprmMean X y Xq σ lam σn2, gprmCov X Xq σ lam σn2 0)
  else Except.error NumericalInstabilityError.notPositiveDefinite

/-- **C7.** Whenever the training covariance matrix `K` is not positive
definite to working precision, the GP posterior computation fails fast with
the distinguishable `NumericalInstabilityError` rather than silently
returning numeric junk. -/
theorem gpPosteriorChecked_fails_fast {n m : ℕ} (X y : Fin n → ℝ) (Xq : Fin m → ℝ)
    (σ lam σn2 : ℝ) (h : ¬(trainCov σ lam σn2 X).PosDef) :
    gpPosteriorChecked X y Xq σ lam σn2
      = Except.error NumericalInstabilityError.notPositiveDefinite := by
  unfold gpPosteriorChecked
  rw [if_neg h]

lemma dupTrainCov_not_posDef : ¬(trainCov 1 1 0 ![(0 : ℝ), 0]).PosDef := by
  intro h
  have hz : (![1, -1] : Fin 2 → ℝ) ≠ 0 := by
    intro hc
    have h0 := congrFun hc 0
    norm_num at h0
  have hq := h.2 ![1, -1] hz
  have hform : dotProduct (star (![1, -1] : Fin 2 → ℝ))
      (trainCov 1 1 0 ![(0 : ℝ), 0] *ᵥ ![1, -1]) = 0 := by
    simp [trainCov, kernelMatrix, ExponentiatedQuadratic, Matrix.dotProduct,
      Matrix.mulVec, Fin.sum_univ_two, Matrix.smul_apply, Matrix.one_apply,
      Matrix.add_apply]
  rw [hform] at hq
  exact lt_irrefl 0 hq

/-- Witness for C7: two duplicated training points at `0` with zero noise
variance give the singular all-ones training covariance, and the checked
computation returns the `NumericalInstabilityError`. -/
theorem gpPosteriorChecked_fails_fast_witness :
    ¬(trainCov 1 1 0 ![(0 : ℝ), 0]).PosDef ∧
    gpPosteriorChecked ![(0 : ℝ), 0] ![(0 : ℝ), 0] ![(0 : ℝ)] 1 1 0
      = Except.error NumericalInstabilityError.notPositiveDefinite :=
  ⟨dupTrainCov_not_posDef,
    gpPosteriorChecked_fails_fast ![0, 0] ![0, 0] ![0] 1 1 0 dupTrainCov_not_posDef⟩

end FailFast

section Interpolation

lemma solveVec_eq_smul_adjugate {n : ℕ} (K : Matrix (Fin n) (Fin n) ℝ) (b : Fin n → ℝ) :
    solveVec K b = K.det⁻¹ • (K.adjugate *ᵥ b) := by
  unfold solveVec
  rw [Matrix.cramer_eq_adjugate_mulVec]

lemma gprmMean_eq_smul {n m : ℕ} (X y : Fin n → ℝ) (Xq : Fin m → ℝ) (σ lam σn2 : ℝ) :
    gprmMean X y Xq σ lam σn2
      = (trainCov σ lam σn2 X).det⁻¹
          • (kernelMatrix σ lam Xq X *ᵥ ((trainCov σ lam σn2 X).adjugate *ᵥ y)) := by
  unfold gprmMean
  rw [solveVec_eq_smul_adjugate, Matrix.mulVec_smul]

lemma gprmCov_eq_smul {n m : ℕ} (X : Fin n → ℝ) (Xq : Fin m → ℝ) (σ lam σn2 : ℝ) :
    gprmCov X Xq σ lam σn2 0
      = kernelMatrix σ lam Xq Xq
        - (trainCov σ lam σn2 X).det⁻¹
            • (kernelMatrix σ lam Xq X
                * ((trainCov σ lam σn2 X).adjugate * kernelMatrix σ lam X Xq)) := by
  unfold gprmCov solveMat
  rw [zero_smul, add_zero, Matrix.mul_smul]

/-- Counterexample to **C5**: with the two duplicated training points
`x = (0, 0)` and distinct targets `y = (0, 1)`, querying at the training
points, the posterior mean does not converge to the training targets as the
noise variance tends to zero: the two kernel rows coincide, so the two
components of the mean are equal for every noise variance and cannot
converge to the distinct targets `0` and `1`. -/
theorem gprm_interpolation_fails_duplicate_points :
    ¬ Tendsto (fun ε => gprmMean ![(0 : ℝ), 0] ![(0 : ℝ), 1] ![(0 : ℝ), 0] 1 1 ε)
        (nhdsWithin 0 (Set.Ioi 0)) (nhds ![(0 : ℝ), 1]) := by
  intro hT
  have hcomp : ∀ ε : ℝ,
      gprmMean ![(0 : ℝ), 0] ![(0 : ℝ), 1] ![(0 : ℝ), 0] 1 1 ε 0
        = gprmMean ![(0 : ℝ), 0] ![(0 : ℝ), 1] ![(0 : ℝ), 0] 1 1 ε 1 := by
    intro ε
    simp [gprmMean, Matrix.mulVec, Matrix.dotProduct, kernelMatrix, Fin.sum_univ_two]
  have h0 : Tendsto (fun ε => gprmMean ![(0 : ℝ), 0] ![(0 : ℝ), 1] ![(0 : ℝ), 0] 1 1 ε 0)
      (nhdsWithin 0 (Set.Ioi 0)) (nhds 0) := by
    have h := tendsto_pi_nhds.mp hT 0
    simpa using h
  have h1 : Tendsto (fun ε => gprmMean ![(0 : ℝ), 0] ![(0 : ℝ), 1] ![(0 : ℝ), 0] 1 1 ε 1)
      (nhdsWithin 0 (Set.Ioi 0)) (nhds 1) := by
    have h := tendsto_pi_nhds.mp hT 1
    simpa using h
  have h0' : Tendsto (fun ε => gprmMean ![(0 : ℝ), 0] ![(0 : ℝ), 1] ![(0 : ℝ), 0] 1 1 ε 1)
      (nhdsWithin 0 (Set.Ioi 0)) (nhds 0) := Filter.Tendsto.congr hcomp h0
  have hcontra : (0 : ℝ) = 1 := tendsto_nhds_unique h0' h1
  norm_num at hcontra

/-- **C5 (amended).** For every training set with at least one point whose
noise-free kernel Gram matrix `k(X,X)` is invertible (duplicate training
points can make it singular, in which case the property fails), when the
query points equal the training points and the noise variance tends to zero,
the posterior mean converges to the training targets and the posterior
covariance converges to the zero matrix. -/
theorem gprm_interpolation_of_invertible_gram {n : ℕ} (X y : Fin n → ℝ) (σ lam : ℝ)
    (_hn : 0 < n) (hdet : (kernelMatrix σ lam X X).det ≠ 0) :
    Tendsto (fun ε => gprmMean X y X σ lam ε) (nhdsWithin 0 (Set.Ioi 0)) (nhds y) ∧
    Tendsto (fun ε => gprmCov X X σ lam ε 0) (nhdsWithin 0 (Set.Ioi 0)) (nhds 0) := by
  have hA : Continuous fun ε : ℝ => trainCov σ lam ε X := by
    unfold trainCov
    exact continuous_const.add (continuous_id.smul continuous_const)
  have hA0 : trainCov σ lam 0 X = kernelMatrix σ lam X X := by
    unfold trainCov
    rw [zero_smul, add_zero]
  have hdetc : ContinuousAt (fun ε : ℝ => (trainCov σ lam ε X).det) 0 :=
    hA.matrix_det.continuousAt
  have hdetne : (trainCov σ lam 0 X).det ≠ 0 := by
    rw [hA0]
    exact hdet
  have hinv : ContinuousAt (fun ε : ℝ => (trainCov σ lam ε X).det⁻¹) 0 :=
    hdetc.inv₀ hdetne
  have hadj : Continuous fun ε : ℝ => (trainCov σ lam ε X).adjugate :=
    hA.matrix_adjugate
  constructor
  · have hmean_cont : ContinuousAt (fun ε => gprmMean X y X σ lam ε) 0 := by
      have hfun : (fun ε => gprmMean X y X σ lam ε)
          = fun ε => (trainCov σ lam ε X).det⁻¹
              • (kernelMatrix σ lam X X *ᵥ ((trainCov σ lam ε X).adjugate *ᵥ y)) :=
        funext fun ε => gprmMean_eq_smul X y X σ lam ε
      rw [hfun]
      exact hinv.smul
        (continuous_const.matrix_mulVec (hadj.matrix_mulVec continuous_const)).continuousAt
    have hmean0 : gprmMean X y X σ lam 0 = y := by
      unfold gprmMean
      rw [hA0, solveVec_eq_inv_mulVec, Matrix.mulVec_mulVec,
        Matrix.mul_nonsing_inv _ (Ne.isUnit hdet), Matrix.one_mulVec]
    have ht : Tendsto (fun ε => gprmMean X y X σ lam ε) (nhds 0)
        (nhds (gprmMean X y X σ lam 0)) := hmean_cont.tendsto
    rw [hmean0] at ht
    exact ht.mono_left nhdsWithin_le_nhds
  · have hcov_cont : ContinuousAt (fun ε => gprmCov X X σ lam ε 0) 0 := by
      have hfun : (fun ε => gprmCov X X σ lam ε 0)
          = fun ε => kernelMatrix σ lam X X
              - (trainCov σ lam ε X).det⁻¹
                  • (kernelMatrix σ lam X X
                      * ((trainCov σ lam ε X).adjugate * kernelMatrix σ lam X X)) :=
        funext fun ε => gprmCov_eq_smul X X σ lam ε
      rw [hfun]
      exact continuousAt_const.sub
        (hinv.smul (continuous_const.matrix_mul (hadj.matrix_mul continuous_const)).continuousAt)
    have hcov0 : gprmCov X X σ lam 0 0 = 0 := by
      unfold gprmCov
      rw [hA0, solveMat_eq_inv_mul, zero_smul, add_zero,
        Matrix.nonsing_inv_mul _ (Ne.isUnit hdet), Matrix.mul_one, sub_self]
    have ht : Tendsto (fun ε => gprmCov X X σ lam ε 0) (nhds 0)
        (nhds (gprmCov X X σ lam 0 0)) := hcov_cont.tendsto
    rw [hcov0] at ht
    exact ht.mono_left nhdsWithin_le_nhds

lemma singlePoint_gram_det_ne_zero : (kernelMatrix 1 1 ![(0 : ℝ)] ![(0 : ℝ)]).det ≠ 0 := by
  rw [Matrix.det_fin_one]
  simp [kernelMatrix, ExponentiatedQuadratic, Real.exp_ne_zero]

/-- Witness for the amended C5 at the single training point `0` with target
`5` and unit hyperparameters. -/
theorem gprm_interpolation_of_invertible_gram_witness :
    (0 < 1 ∧ (kernelMatrix 1 1 ![(0 : ℝ)] ![(0 : ℝ)]).det ≠ 0) ∧
    (Tendsto (fun ε => gprmMean ![(0 : ℝ)] ![(5 : ℝ)] ![(0 : ℝ)] 1 1 ε)
        (nhdsWithin 0 (Set.Ioi 0)) (nhds ![(5 : ℝ)]) ∧
      Tendsto (fun ε => gprmCov ![(0 : ℝ)] ![(0 : ℝ)] 1 1 ε 0)
        (nhdsWithin 0 (Set.Ioi 0)) (nhds 0)) :=
  ⟨⟨by norm_num, singlePoint_gram_det_ne_zero⟩,
    gprm_interpolation_of_invertible_gram ![0] ![5] 1 1 (by norm_num)
      singlePoint_gram_det_ne_zero⟩

end Interpolation

end GPNotebook
